import Mathlib

/-!
Verification development for the LiteLLM protocol bridge and agent loop of a
desktop chat client.  The definitions below are shallow embeddings of the
TypeScript sources: the ConverseService translator
(src/main/api/litellm/services/converseService.ts), the ModelService
(src/main/api/litellm/services/modelService.ts) and the useAgentChat hook
(src/renderer/src/pages/ChatPage/hooks/useAgentChat.ts).  JavaScript
truthiness on optional strings is modelled by strTruthy; JSON.stringify is
modelled by an executable renderer; JSON.parse is modelled as an oracle
parameter.
-/

/-- JS truthiness of an optional string: present and non-empty. -/
def strTruthy : Option String → Bool
  | none => false
  | some s => s ≠ ""

/-- Structured JSON values carried through the bridge. -/
inductive JsonV where
  | null : JsonV
  | bool (b : Bool) : JsonV
  | num (n : Int) : JsonV
  | str (s : String) : JsonV
  | arr (l : List JsonV) : JsonV
  | obj (fields : List (String × JsonV)) : JsonV

/-- Whether a JSON value is an object holding the given key
(models Object.prototype.hasOwnProperty). -/
def JsonV.hasKey : JsonV → String → Bool
  | .obj fields, k => fields.any (fun f => f.1 = k)
  | _, _ => false

mutual

/-- Executable model of JSON.stringify on structured values. -/
def JsonV.render : JsonV → String
  | .null => "null"
  | .bool b => if b then "true" else "false"
  | .num n => toString n
  | .str s => "\"" ++ s ++ "\""
  | .arr l => "[" ++ JsonV.renderList l ++ "]"
  | .obj fields => "\x7b" ++ JsonV.renderFields fields ++ "\x7d"

/-- Renders a comma separated list of JSON values. -/
def JsonV.renderList : List JsonV → String
  | [] => ""
  | [v] => JsonV.render v
  | v :: rest => JsonV.render v ++ "," ++ JsonV.renderList rest

/-- Renders a comma separated list of JSON object fields. -/
def JsonV.renderFields : List (String × JsonV) → String
  | [] => ""
  | [(k, v)] => "\"" ++ k ++ "\":" ++ JsonV.render v
  | (k, v) :: rest => "\"" ++ k ++ "\":" ++ JsonV.render v ++ "," ++ JsonV.renderFields rest

end

/-! ## Bedrock-side (native) message model -/

/-- A toolUse content block: the model requested invocation of a tool. -/
structure BToolUse where
  toolUseId : Option String := none
  name : Option String := none
  input : JsonV := .null

/-- One element of a tool result content list: either a text or a json slot
(the source stores arbitrary values in either slot). -/
inductive TRContent where
  | text (v : JsonV) : TRContent
  | json (v : JsonV) : TRContent

/-- A toolResult content block, correlated to a toolUse by toolUseId. -/
structure BToolResult where
  toolUseId : Option String := none
  content : Option (List TRContent) := none
  status : Option String := none

/-- Visible reasoning text with signature. -/
structure BReasoningText where
  text : Option String := none
  signature : Option String := none

/-- Reasoning content: visible or redacted. -/
structure BReasoning where
  reasoningText : Option BReasoningText := none
  redactedContent : Option String := none

/-- An image block (format plus base64 bytes). -/
structure BImageSource where
  bytes : Option String := none

/-- An image content block. -/
structure BImage where
  format : String := ""
  source : Option BImageSource := none

/-- A cachePoint annotation block. -/
structure BCachePoint where
  type : String := ""

/-- A native content block: a record of optional variants, mirroring the
Bedrock ContentBlock union as the TypeScript code accesses it. -/
structure CBlock where
  text : Option String := none
  image : Option BImage := none
  reasoningContent : Option BReasoning := none
  toolUse : Option BToolUse := none
  toolResult : Option BToolResult := none
  cachePoint : Option BCachePoint := none

/-- A native message: role plus optional content blocks. -/
structure BMessage where
  role : String := "user"
  content : Option (List CBlock) := none

/-- A system content block. -/
structure SystemBlock where
  text : Option String := none
  cachePoint : Option BCachePoint := none

/-! ## Proxy-side (OpenAI-style) message model -/

/-- A typed proxy content part. -/
inductive ProxyPart where
  | text (s : String) : ProxyPart
  | image_url (url : String) : ProxyPart
  | thinking (t : String) (signature : Option String) : ProxyPart
deriving DecidableEq

/-- Proxy message content: a raw string or an array of typed parts. -/
inductive ProxyContent where
  | str (s : String) : ProxyContent
  | parts (l : List ProxyPart) : ProxyContent
deriving DecidableEq

/-- A proxy tool call (function-calling schema). -/
structure ProxyToolCall where
  id : Option String := none
  name : String := ""
  arguments : String := ""
deriving DecidableEq

/-- A proxy chat message as produced by prepareMessages.  cache_control
models the presence of the ephemeral cache annotation. -/
structure ChatMsg where
  role : String := "user"
  tool_call_id : Option String := none
  content : Option ProxyContent := none
  tool_calls : Option (List ProxyToolCall) := none
  cache_control : Bool := false
deriving DecidableEq

/-! ## ConverseService: outbound conversion -/

/-- ConverseService.convertRole: passes known roles through, defaults to user. -/
def convertRole (role : String) : String :=
  if role = "user" then role
  else if role = "assistant" then role
  else if role = "system" then role
  else if role = "function" then role
  else if role = "tool" then role
  else "user"

/-- ConverseService.convertContent: converts native blocks to proxy parts,
collapsing a single text part to a raw string, returning none when empty. -/
def convertContent (blocks : List CBlock) : Option ProxyContent :=
  let result := blocks.foldl (fun acc block =>
    if strTruthy block.text then
      acc ++ [ProxyPart.text (block.text.getD "")]
    else
      match block.image with
      | some img =>
        match img.source with
        | some src =>
          if strTruthy src.bytes then
            acc ++ [ProxyPart.image_url
              ("data:image/" ++ img.format ++ ";base64," ++ src.bytes.getD "")]
          else convertContentReasoning acc block
        | none => convertContentReasoning acc block
      | none => convertContentReasoning acc block) []
  match result with
  | [ProxyPart.text s] => some (ProxyContent.str s)
  | [] => none
  | l => some (ProxyContent.parts l)
where
  /-- The trailing reasoning branch of the if chain in convertContent. -/
  convertContentReasoning (acc : List ProxyPart) (block : CBlock) : List ProxyPart :=
    match block.reasoningContent with
    | some rc =>
      match rc.reasoningText with
      | some rt =>
        if strTruthy rt.text then
          acc ++ [ProxyPart.thinking (rt.text.getD "") rt.signature]
        else acc
      | none => acc
    | none => acc

/-- ConverseService.convertToolCalls: toolUse blocks with id and name become
proxy tool calls with JSON-stringified input; empty list maps to none. -/
def convertToolCalls (blocks : List CBlock) : Option (List ProxyToolCall) :=
  let result := blocks.foldl (fun acc block =>
    match block.toolUse with
    | some tu =>
      if strTruthy tu.toolUseId ∧ strTruthy tu.name then
        acc ++ [{ id := tu.toolUseId, name := tu.name.getD "",
                  arguments := tu.input.render : ProxyToolCall }]
      else acc
    | none => acc) []
  if result = [] then none else some result

/-- ConverseService.convertCacheControl: ephemeral cache annotation when any
block carries a default cachePoint. -/
def convertCacheControl (blocks : List CBlock) : Bool :=
  blocks.any (fun block =>
    match block.cachePoint with
    | some cp => cp.type = "default"
    | none => false)

/-- Encodes a tool result content element as the JSON object the source
serializes (JSON.stringify drops absent slots). -/
def TRContent.toJson : TRContent → JsonV
  | .text v => .obj [("text", v)]
  | .json v => .obj [("json", v)]

/-- Renders a tool result content list as JSON.stringify does. -/
def renderTRList (l : List TRContent) : String :=
  (JsonV.arr (l.map TRContent.toJson)).render

/-- The proxy messages contributed by one native message in
ConverseService.prepareMessages: a message whose first block is a toolResult
with content yields a single tool message; otherwise a chat message; a
message with no content yields nothing. -/
def convertOneMsg (m : BMessage) : List ChatMsg :=
  match m.content with
  | none => []
  | some blocks =>
    match blocks with
    | [] =>
      [{ role := convertRole m.role, content := convertContent blocks,
         tool_calls := convertToolCalls blocks,
         cache_control := convertCacheControl blocks }]
    | b :: _ =>
      match b.toolResult with
      | some tr =>
        match tr.content with
        | some l =>
          [{ role := "tool", tool_call_id := tr.toolUseId,
             content := some (ProxyContent.str (renderTRList l)),
             cache_control := convertCacheControl blocks }]
        | none =>
          [{ role := convertRole m.role, content := convertContent blocks,
             tool_calls := convertToolCalls blocks,
             cache_control := convertCacheControl blocks }]
      | none =>
        [{ role := convertRole m.role, content := convertContent blocks,
           tool_calls := convertToolCalls blocks,
           cache_control := convertCacheControl blocks }]

/-- The system message part of ConverseService.prepareMessages. -/
def systemMsgs (system : List SystemBlock) : List ChatMsg :=
  match system with
  | [] => []
  | s0 :: _ =>
    if strTruthy s0.text then
      [{ role := "system", content := some (ProxyContent.str (s0.text.getD "")),
         cache_control := system.any (fun b =>
           match b.cachePoint with
           | some cp => cp.type = "default"
           | none => false) }]
    else []

/-- ConverseService.prepareMessages: system message first, then the proxy
messages contributed by each native message in order. -/
def prepareMessages (messages : List BMessage) (system : List SystemBlock) :
    List ChatMsg :=
  systemMsgs system ++ messages.flatMap convertOneMsg

/-! ## ConverseService: stop reason mapping -/

/-- ConverseService.mapStopReason: the fixed finish-reason table with
end_turn as the default case. -/
def mapStopReason (finishReason : String) : String :=
  if finishReason = "stop" then "end_turn"
  else if finishReason = "length" then "max_tokens"
  else if finishReason = "content_filter" then "content_filtered"
  else if finishReason = "tool_calls" then "tool_use"
  else "end_turn"

/-! ## ConverseService: inbound conversion, non-streaming -/

/-- A proxy usage object with the counters the source reads. -/
structure PUsage where
  prompt_tokens : Int := 0
  completion_tokens : Int := 0
  total_tokens : Int := 0
  cache_read_input_tokens : Int := 0
  cache_creation_input_tokens : Int := 0
deriving DecidableEq

/-- The Bedrock-format usage record built by the converter. -/
structure NUsage where
  cacheReadInputTokens : Int := 0
  cacheWriteInputTokens : Int := 0
  inputTokens : Int := 0
  outputTokens : Int := 0
  totalTokens : Int := 0
deriving DecidableEq

/-- The cache-adjusted usage record the source builds from a proxy usage
object: cache reads are subtracted from input, cache writes added to total. -/
def adjustUsage (u : PUsage) : NUsage :=
  { cacheReadInputTokens := u.cache_read_input_tokens
    cacheWriteInputTokens := u.cache_creation_input_tokens
    inputTokens := u.prompt_tokens - u.cache_read_input_tokens
    outputTokens := u.completion_tokens
    totalTokens := u.total_tokens + u.cache_creation_input_tokens }

/-- A tool call in a non-streaming proxy response. -/
structure RToolCall where
  id : Option String := none
  type : String := "function"
  name : String := ""
  arguments : String := ""

/-- The message of a non-streaming proxy choice. -/
structure RMessage where
  content : Option String := none
  tool_calls : List RToolCall := []

/-- A non-streaming proxy choice. -/
structure RChoice where
  message : RMessage := {}
  finish_reason : String := "stop"

/-- A non-streaming proxy response. -/
structure RResponse where
  choices : List RChoice := []
  usage : Option PUsage := none

/-- The converted non-streaming output: assistant message, stop reason and
usage (metrics and HTTP metadata omitted as constants). -/
structure ConverseOutput where
  message : BMessage := {}
  stopReason : String := ""
  usage : Option NUsage := none

/-- ConverseService.convertToBedrock.  JSON.parse on tool call arguments is
an oracle parameter; a parse failure or an empty choices array is the thrown
exception, modelled as none.  The source reads usage with optional chaining,
so the usage record is built only when usage is present (absent counters
would be NaN arithmetic, outside this model). -/
def convertToBedrock (parse : String → Option JsonV) (response : RResponse) :
    Option ConverseOutput :=
  match response.choices with
  | [] => none
  | choice :: _ =>
    let textContent : List CBlock :=
      if strTruthy choice.message.content then
        [{ text := choice.message.content }]
      else []
    match choice.message.tool_calls.mapM (fun tc =>
        if tc.type = "function" then
          match parse tc.arguments with
          | some v =>
            let tu : BToolUse := { toolUseId := tc.id, name := some tc.name, input := v }
            some [({ toolUse := some tu } : CBlock)]
          | none => none
        else some []) with
    | none => none
    | some toolBlocks =>
      some
        { message :=
            { role := "assistant", content := some (textContent ++ toolBlocks.flatten) }
          stopReason := mapStopReason choice.finish_reason
          usage := response.usage.map adjustUsage }

/-! ## ConverseService: inbound conversion, streaming -/

/-- The kind of the currently open content block. -/
inductive BlockMode where
  | text : BlockMode
  | thinking : BlockMode
  | tool : BlockMode
deriving DecidableEq

/-- A streamed tool call delta (id, function name, argument fragment). -/
structure DToolCall where
  id : Option String := none
  name : Option String := none
  arguments : Option String := none
deriving DecidableEq

/-- A thinking block carrying a signature. -/
structure DThinkingBlock where
  signature : Option String := none
deriving DecidableEq

/-- A streamed choice delta. -/
structure PDelta where
  content : Option String := none
  reasoning_content : Option String := none
  thinking_blocks : Option (List DThinkingBlock) := none
  tool_calls : Option (List DToolCall) := none
deriving DecidableEq

/-- A streamed proxy choice. -/
structure PChoice where
  delta : Option PDelta := none
  finish_reason : Option String := none
deriving DecidableEq

/-- A streamed proxy chunk. -/
structure PChunk where
  choices : List PChoice := []
  usage : Option PUsage := none
deriving DecidableEq

/-- The payload of an emitted native contentBlockDelta event. -/
inductive NativeDelta where
  | text (s : String) : NativeDelta
  | reasoningText (s : String) : NativeDelta
  | reasoningSignature (s : String) : NativeDelta
  | toolInput (s : String) : NativeDelta
deriving DecidableEq

/-- A native stream event emitted by the converter. -/
inductive StreamEvent where
  | messageStart (role : String) : StreamEvent
  | contentBlockStart (contentBlockIndex : Nat) (name : Option String)
      (toolUseId : Option String) : StreamEvent
  | contentBlockDelta (contentBlockIndex : Nat) (delta : NativeDelta) : StreamEvent
  | contentBlockStop (contentBlockIndex : Nat) : StreamEvent
  | messageStop (stopReason : String) : StreamEvent
  | metadata (usage : NUsage) : StreamEvent
deriving DecidableEq

/-- Executable model of the JS String trim: strips whitespace from both
ends. -/
def jsTrim (s : String) : String :=
  String.mk (((s.toList.dropWhile Char.isWhitespace).reverse.dropWhile
    Char.isWhitespace).reverse)

/-- The per-stream state of the delta reassembly state machine. -/
structure StState where
  isFirstChunk : Bool := true
  contentBlockIndex : Nat := 0
  mode : Option BlockMode := none
deriving DecidableEq

/-- Processes the tool call deltas of one chunk, mirroring the inner
for-loop of convertStreamToBedrock. -/
def processToolCalls (idx : Nat) (mode : Option BlockMode) :
    List DToolCall → Nat × Option BlockMode × List StreamEvent
  | [] => (idx, mode, [])
  | tc :: rest =>
    if mode ≠ some BlockMode.tool then
      let stopEvs := if idx > 0 then [StreamEvent.contentBlockStop idx] else []
      let idx2 := idx + 1
      let startEvs :=
        if strTruthy tc.name then
          [StreamEvent.contentBlockStart idx2 tc.name tc.id]
        else []
      let (idx3, mode3, evs) := processToolCalls idx2 (some BlockMode.tool) rest
      (idx3, mode3, stopEvs ++ startEvs ++ evs)
    else
      let deltaEvs :=
        if strTruthy tc.arguments ∧ jsTrim (tc.arguments.getD "") ≠ "\x7b\x7d" then
          [StreamEvent.contentBlockDelta idx (NativeDelta.toolInput (tc.arguments.getD ""))]
        else []
      let (idx3, mode3, evs) := processToolCalls idx mode rest
      (idx3, mode3, deltaEvs ++ evs)

/-- Processes one proxy chunk of convertStreamToBedrock: usage metadata
first, then the empty-choices skip, messageStart on the first contentful
chunk, the text, reasoning, signature and tool delta branches in source
order, and finally the finish-reason events. -/
def processChunk (st : StState) (chunk : PChunk) : StState × List StreamEvent :=
  let usageEvs :=
    match chunk.usage with
    | some u => [StreamEvent.metadata (adjustUsage u)]
    | none => []
  match chunk.choices with
  | [] => (st, usageEvs)
  | choice :: _ =>
    let (startEvs, first2) :=
      if st.isFirstChunk then ([StreamEvent.messageStart "assistant"], false)
      else ([], st.isFirstChunk)
    let idx0 := st.contentBlockIndex
    let mode0 := st.mode
    let (idx1, mode1, deltaEvs) :=
      match choice.delta with
      | none => (idx0, mode0, [])
      | some d =>
        let (idxA, modeA, textEvs) :=
          if strTruthy d.content then
            if mode0 ≠ some BlockMode.text then
              let stopEvs := if idx0 > 0 then [StreamEvent.contentBlockStop idx0] else []
              let idxA := if mode0.isSome then idx0 + 1 else idx0
              (idxA, some BlockMode.text,
                stopEvs ++ [StreamEvent.contentBlockDelta idxA
                  (NativeDelta.text (d.content.getD ""))])
            else
              (idx0, mode0,
                [StreamEvent.contentBlockDelta idx0 (NativeDelta.text (d.content.getD ""))])
          else (idx0, mode0, [])
        let (idxB, modeB, thinkEvs) :=
          if strTruthy d.reasoning_content then
            if modeA ≠ some BlockMode.thinking then
              let stopEvs := if idxA > 0 then [StreamEvent.contentBlockStop idxA] else []
              let idxB := if modeA.isSome then idxA + 1 else idxA
              (idxB, some BlockMode.thinking,
                stopEvs ++ [StreamEvent.contentBlockDelta idxB
                  (NativeDelta.reasoningText (d.reasoning_content.getD ""))])
            else
              (idxA, modeA,
                [StreamEvent.contentBlockDelta idxA
                  (NativeDelta.reasoningText (d.reasoning_content.getD ""))])
          else (idxA, modeA, [])
        let sigEvs :=
          match d.thinking_blocks with
          | some (tb :: _) =>
            if strTruthy tb.signature then
              [StreamEvent.contentBlockDelta idxB
                (NativeDelta.reasoningSignature (tb.signature.getD ""))]
            else []
          | _ => []
        let (idxC, modeC, toolEvs) :=
          match d.tool_calls with
          | some tcs => processToolCalls idxB modeB tcs
          | none => (idxB, modeB, [])
        (idxC, modeC, textEvs ++ thinkEvs ++ sigEvs ++ toolEvs)
    let finishEvs :=
      if strTruthy choice.finish_reason then
        [StreamEvent.contentBlockStop idx1,
         StreamEvent.messageStop (mapStopReason (choice.finish_reason.getD ""))]
      else []
    ({ isFirstChunk := first2, contentBlockIndex := idx1, mode := mode1 },
      usageEvs ++ startEvs ++ deltaEvs ++ finishEvs)

/-- ConverseService.convertStreamToBedrock: folds processChunk over the
chunk sequence from the initial state, concatenating emitted events. -/
def convertStreamToBedrock (chunks : List PChunk) : List StreamEvent :=
  (chunks.foldl (fun acc chunk =>
    let (st2, evs) := processChunk acc.1 chunk
    (st2, acc.2 ++ evs)) (({} : StState), ([] : List StreamEvent))).2

/-! ## ConverseService: retry policy (handleError) -/

/-- An API error as handleError inspects it: only the status matters. -/
structure ApiErr where
  status : Option Int := none
deriving DecidableEq

/-- The transient status classes handleError retries on. -/
def isTransient (e : ApiErr) : Bool :=
  e.status = some 429 ∨ e.status = some 500 ∨ e.status = some 503

/-- ConverseService.MAX_RETRIES. -/
def MAX_RETRIES : Nat := 5

/-- ConverseService.RETRY_DELAY in milliseconds. -/
def RETRY_DELAY : Nat := 1000

/-- Observable retry-loop events: an attempt with its retry counter, and the
fixed delay between attempts. -/
inductive RetryEv where
  | attempt (n : Nat) : RetryEv
  | delay (ms : Nat) : RetryEv
deriving DecidableEq

/-- The converse retry loop: each attempt is an oracle indexed by the retry
counter; a transient error below the retry bound sleeps RETRY_DELAY and
re-enters converse with the counter incremented, anything else propagates. -/
def converseWithRetry {α : Type} (attemptRun : Nat → Except ApiErr α)
    (retries : Nat) : Except ApiErr α × List RetryEv :=
  match attemptRun retries with
  | .ok v => (.ok v, [RetryEv.attempt retries])
  | .error e =>
    if h : isTransient e = true ∧ retries < MAX_RETRIES then
      let rest := converseWithRetry attemptRun (retries + 1)
      (rest.1, RetryEv.attempt retries :: RetryEv.delay RETRY_DELAY :: rest.2)
    else (.error e, [RetryEv.attempt retries])
termination_by MAX_RETRIES + 1 - retries
decreasing_by
  have := h.2
  omega

/-- The converseStream retry loop; handleError drives it identically to the
non-streaming one. -/
def converseStreamWithRetry {α : Type} (attemptRun : Nat → Except ApiErr α)
    (retries : Nat) : Except ApiErr α × List RetryEv :=
  match attemptRun retries with
  | .ok v => (.ok v, [RetryEv.attempt retries])
  | .error e =>
    if h : isTransient e = true ∧ retries < MAX_RETRIES then
      let rest := converseStreamWithRetry attemptRun (retries + 1)
      (rest.1, RetryEv.attempt retries :: RetryEv.delay RETRY_DELAY :: rest.2)
    else (.error e, [RetryEv.attempt retries])
termination_by MAX_RETRIES + 1 - retries
decreasing_by
  have := h.2
  omega

/-! ## useAgentChat: stopGeneration incomplete-pair repair -/

/-- One entry of the toolUseIds map: the message indices of the last seen
use and result, with the -1 sentinel from the source. -/
structure PairEntry where
  useIndex : Int := -1
  resultIndex : Int := -1
deriving DecidableEq

/-- Updates the entry of a key in an insertion-ordered association list,
appending a freshly updated default entry when absent (JS Map semantics). -/
def upsertEntry (k : String) (f : PairEntry → PairEntry) :
    List (String × PairEntry) → List (String × PairEntry)
  | [] => [(k, f {})]
  | (k2, e) :: rest =>
    if k2 = k then (k2, f e) :: rest else (k2, e) :: upsertEntry k f rest

/-- The truthy toolUse id of one content block, when recorded by the scan. -/
def blockUseId (b : CBlock) : Option String :=
  match b.toolUse with
  | some tu => if strTruthy tu.toolUseId then some (tu.toolUseId.getD "") else none
  | none => none

/-- The truthy toolResult id of one content block, when recorded by the
scan. -/
def blockResId (b : CBlock) : Option String :=
  match b.toolResult with
  | some tr => if strTruthy tr.toolUseId then some (tr.toolUseId.getD "") else none
  | none => none

/-- Records the toolUse and toolResult occurrences of one content block at
message index i into the toolUseIds map. -/
def scanBlock (i : Nat) (m : List (String × PairEntry)) (b : CBlock) :
    List (String × PairEntry) :=
  let m1 :=
    match blockUseId b with
    | some id => upsertEntry id (fun e => { e with useIndex := (i : Int) }) m
    | none => m
  match blockResId b with
  | some id => upsertEntry id (fun e => { e with resultIndex := (i : Int) }) m1
  | none => m1

/-- Records one message into the toolUseIds map (a message without content
is skipped). -/
def scanMsg (i : Nat) (m : List (String × PairEntry)) (msg : BMessage) :
    List (String × PairEntry) :=
  (msg.content.getD []).foldl (scanBlock i) m

/-- Builds the toolUseIds map over the enumerated message list. -/
def buildPairMapAux : Nat → List BMessage → List (String × PairEntry) →
    List (String × PairEntry)
  | _, [], m => m
  | i, msg :: rest, m => buildPairMapAux (i + 1) rest (scanMsg i m msg)

/-- The toolUseIds map of stopGeneration. -/
def buildPairMap (msgs : List BMessage) : List (String × PairEntry) :=
  buildPairMapAux 0 msgs []

/-- Inserts a value into a descending-sorted list. -/
def insertDesc (n : Nat) : List Nat → List Nat
  | [] => [n]
  | m :: rest => if n ≥ m then n :: m :: rest else m :: insertDesc n rest

/-- Sorts indices in descending order (the b - a comparator of the source). -/
def sortDesc (l : List Nat) : List Nat := l.foldr insertDesc []

/-- First-occurrence deduplication with a seen accumulator (JS Set
insertion semantics). -/
def dedupNatAux (seen : List Nat) : List Nat → List Nat
  | [] => []
  | a :: rest =>
    if a ∈ seen then dedupNatAux seen rest
    else a :: dedupNatAux (a :: seen) rest

/-- First-occurrence deduplication (JS Set insertion semantics). -/
def dedupNat (l : List Nat) : List Nat := dedupNatAux [] l

/-- The message indices stopGeneration deletes: entries with a recorded use
and the -1 result sentinel, as a set (first-occurrence dedup), sorted
descending. -/
def indicesToDelete (msgs : List BMessage) : List Nat :=
  sortDesc (dedupNat ((buildPairMap msgs).filterMap (fun p =>
    if p.2.useIndex ≥ 0 ∧ p.2.resultIndex = -1 then some p.2.useIndex.toNat
    else none)))

/-- The incomplete-pair repair of stopGeneration: splices each collected
index out of the in-memory copy, highest first, and issues the matching
durable deleteMessage calls in the same order.  The surrounding guard (an
active AbortController) and the toast are outside the model. -/
def stopGenerationRepair (msgs : List BMessage) : List BMessage × List Nat :=
  (indicesToDelete msgs).foldl
    (fun acc i => (acc.1.eraseIdx i, acc.2 ++ [i])) (msgs, [])

/-- The truthy toolUse ids of a block list (the occurrences the
stopGeneration scan records). -/
def useIds (blocks : List CBlock) : List String := blocks.filterMap blockUseId

/-- The truthy toolResult ids of a block list. -/
def resIds (blocks : List CBlock) : List String := blocks.filterMap blockResId

/-- The truthy toolUse ids occurring in a message. -/
def usesOf (m : BMessage) : List String := useIds (m.content.getD [])

/-- The truthy toolResult ids occurring in a message. -/
def resultsOf (m : BMessage) : List String := resIds (m.content.getD [])

/-! ## useAgentChat: streamChat malformed-stream retry -/

/-- Outcome of scanning one inbound native event stream: a retry trigger
(messageStop before any messageStart) or normal completion with the last
recorded stop reason. -/
inductive ScanResult where
  | retry : ScanResult
  | done (stopReason : Option String) : ScanResult
deriving DecidableEq

/-- Walks the native events as streamChat does, tracking the messageStart
flag: a messageStop without a prior messageStart triggers the retry path
and abandons the rest of the stream. -/
def scanStream : List StreamEvent → Bool → Option String → ScanResult
  | [], _, sr => ScanResult.done sr
  | ev :: rest, started, sr =>
    match ev with
    | .messageStart _ => scanStream rest true sr
    | .messageStop r => if !started then ScanResult.retry else scanStream rest started (some r)
    | _ => scanStream rest started sr

/-- The streamChat retry behaviour on malformed streams: the oracle gives
the native event stream of each successive attempt; a malformed stream
re-invokes streamChat with the same arguments, without bound (fuel models
the unbounded recursion; none is fuel exhaustion).  Returns the stop reason
and the number of attempts consumed. -/
def streamChatRetries (streams : Nat → List StreamEvent) :
    Nat → Nat → Option (Option String × Nat)
  | 0, _ => none
  | fuel + 1, n =>
    match scanStream (streams n) false none with
    | .retry => streamChatRetries streams fuel (n + 1)
    | .done sr => some (sr, n + 1)

/-! ## useAgentChat: recursive tool execution -/

/-- Guardrail settings as the hook reads them. -/
structure GuardCfg where
  enabled : Bool := false
  guardrailIdentifier : String := ""
  guardrailVersion : String := ""

/-- One guardrail output. -/
structure GuardOutput where
  text : Option String := none

/-- A guardrail evaluation result. -/
structure GuardResult where
  action : String := "NONE"
  outputs : List GuardOutput := []

/-- The text submitted to the guardrail: a string result as-is, anything
else JSON-stringified. -/
def jsText : JsonV → String
  | .str s => s
  | v => v.render

/-- The success tool result block: a json slot when the result object has a
name key, otherwise a text slot. -/
def successResultBlock (toolUseId : Option String) (r : JsonV) : CBlock :=
  if r.hasKey "name" then
    let tr : BToolResult :=
      { toolUseId := toolUseId, content := some [TRContent.json r], status := some "success" }
    { toolResult := some tr }
  else
    let tr : BToolResult :=
      { toolUseId := toolUseId, content := some [TRContent.text r], status := some "success" }
    { toolResult := some tr }

/-- The error tool result block built from a caught execution failure. -/
def errorResultBlock (toolUseId : Option String) (e : String) : CBlock :=
  let tr : BToolResult :=
    { toolUseId := toolUseId, content := some [TRContent.text (JsonV.str e)],
      status := some "error" }
  { toolResult := some tr }

/-- Executes one content block of the batch in recursivelyExecTool: only
toolUse blocks with a truthy name run; a thrown execution error becomes an
error result; the guardrail, when fully configured, may replace a success
result, and a guardrail evaluation failure keeps the original result. -/
def execOneTool (exec : String → JsonV → Except String JsonV)
    (applyGuard : String → Except String GuardResult) (cfg : GuardCfg)
    (b : CBlock) : Option CBlock :=
  match b.toolUse with
  | none => none
  | some tu =>
    if strTruthy tu.name then
      match exec (tu.name.getD "") tu.input with
      | .error e => some (errorResultBlock tu.toolUseId e)
      | .ok r =>
        let base := successResultBlock tu.toolUseId r
        if cfg.enabled ∧ cfg.guardrailIdentifier ≠ "" ∧ cfg.guardrailVersion ≠ "" then
          match applyGuard (jsText r) with
          | .error _ => some base
          | .ok gr =>
            if gr.action = "GUARDRAIL_INTERVENED" then
              let msg :=
                match gr.outputs with
                | o :: _ => if strTruthy o.text then o.text.getD ""
                            else "guardrail.toolResult.blocked"
                | [] => "guardrail.toolResult.blocked"
              let tr : BToolResult :=
                { toolUseId := tu.toolUseId,
                  content := some [TRContent.text (JsonV.str msg)],
                  status := some "error" }
              some { toolResult := some tr }
            else some base
        else some base
    else none

/-- The tool result blocks collected over one batch, in invocation order. -/
def execToolBatch (exec : String → JsonV → Except String JsonV)
    (applyGuard : String → Except String GuardResult) (cfg : GuardCfg)
    (blocks : List CBlock) : List CBlock :=
  blocks.filterMap (execOneTool exec applyGuard cfg)

/-- One round of recursivelyExecTool: when the blocks contain a toolUse,
executes the batch, appends the single user-role tool result message, and
invokes the model (the turn oracle returns the conversation with the new
assistant message appended, plus the stop reason). -/
def oneRound (exec : String → JsonV → Except String JsonV)
    (applyGuard : String → Except String GuardResult) (cfg : GuardCfg)
    (turn : List BMessage → List BMessage × Option String)
    (blocks : List CBlock) (msgs : List BMessage) :
    Option (List BMessage × List BMessage × Option String) :=
  if blocks.any (fun b => b.toolUse.isSome) then
    let results := execToolBatch exec applyGuard cfg blocks
    let trMsg : BMessage := { role := "user", content := some results }
    let conv1 := msgs ++ [trMsg]
    let (conv2, sr) := turn conv1
    some (conv1, conv2, sr)
  else none

/-- recursivelyExecTool: rounds of batch execution and model calls, looping
while the stop reason requests tool use.  Returns the final conversation and
the list of conversations submitted to the model, one per round; fuel
bounds the recursion depth of the model. -/
def recursivelyExecToolModel (exec : String → JsonV → Except String JsonV)
    (applyGuard : String → Except String GuardResult) (cfg : GuardCfg)
    (turn : List BMessage → List BMessage × Option String) :
    Nat → List CBlock → List BMessage → List BMessage × List (List BMessage)
  | 0, blocks, msgs =>
    match oneRound exec applyGuard cfg turn blocks msgs with
    | none => (msgs, [])
    | some (conv1, conv2, _) => (conv2, [conv1])
  | fuel + 1, blocks, msgs =>
    match oneRound exec applyGuard cfg turn blocks msgs with
    | none => (msgs, [])
    | some (conv1, conv2, sr) =>
      if sr = some "tool_use" then
        match conv2.getLast? with
        | some lastMsg =>
          match lastMsg.content with
          | some lastBlocks =>
            let (conv3, calls) :=
              recursivelyExecToolModel exec applyGuard cfg turn fuel lastBlocks conv2
            (conv3, conv1 :: calls)
          | none => (conv2, [conv1])
        | none => (conv2, [conv1])
      else (conv2, [conv1])

/-! ## ModelService: listModels -/

/-- A resolved model entry of the LLM interface. -/
structure LLMRec where
  modelId : String := ""
  modelName : String := ""
  toolUse : Bool := false
  regions : List String := []
  maxTokensLimit : Int := 0
  supportsThinking : Bool := false
  provider : String := ""
deriving DecidableEq

/-- The model_info payload fields the service reads. -/
structure MInfo where
  supports_function_calling : Bool := false
  supports_tool_choice : Bool := false
  max_tokens : Option Int := none
  supported_openai_params : Option (List String) := none

/-- One model entry of the v2/model/info payload. -/
structure MModel where
  model_name : String := ""
  model_info : Option MInfo := none

/-- The parsed payload; a missing or non-array data field is none. -/
structure MBody where
  data : Option (List MModel) := none

/-- ModelService.transformModels: an invalid payload yields the empty list,
otherwise each entry maps to an LLM record (max_tokens of 0 is falsy in the
source and also falls back to 4096). -/
def transformModels (body : MBody) : List LLMRec :=
  match body.data with
  | none => []
  | some l => l.map (fun model =>
      let info := model.model_info.getD {}
      { modelId := model.model_name
        modelName := model.model_name ++ " (LiteLLM)"
        toolUse := info.supports_function_calling || info.supports_tool_choice
        regions := ["default"]
        maxTokensLimit :=
          match info.max_tokens with
          | some n => if n = 0 then 4096 else n
          | none => 4096
        supportsThinking := (info.supported_openai_params.getD []).contains "thinking"
        provider := "litellm" })

/-- LiteLLM credentials as stored. -/
structure LiteCreds where
  apiKey : String := ""
  baseURL : String := ""

/-- The transport outcome of the model-info fetch. -/
inductive FetchOutcome where
  | ok (body : MBody) : FetchOutcome
  | jsonErr : FetchOutcome
  | notOk (statusText : String) : FetchOutcome
  | netErr (msg : String) : FetchOutcome

/-- ModelService.listModels: missing configuration, a non-OK response, a
network failure or an unparsable body all throw inside the try and are
caught, returning the empty list; a parsed body goes through
transformModels.  The cache-hit branch of the source tests a _timestamp
property on the cached array itself, which arrays never carry, so it is
identically false and the model always proceeds to the fetch. -/
def listModels (config : Option LiteCreds) (outcome : FetchOutcome) : List LLMRec :=
  match config with
  | none => []
  | some _ =>
    match outcome with
    | .netErr _ => []
    | .notOk _ => []
    | .jsonErr => []
    | .ok body => transformModels body

/-! ## Concrete instances and auxiliary definitions for the theorems -/

/-- A concrete machine state with an open text block, for the C4 witness. -/
def stWitness : StState :=
  { isFirstChunk := false, contentBlockIndex := 2, mode := some BlockMode.text }

/-- A concrete usage record for the C4 witness. -/
def uWitness : PUsage :=
  { prompt_tokens := 100, completion_tokens := 7, total_tokens := 107,
    cache_read_input_tokens := 40, cache_creation_input_tokens := 10 }

/-- A concrete usage-only chunk for the C4 witness. -/
def cWitness : PChunk := { choices := [], usage := some uWitness }

/-- A concrete proxy response for the C9 witness. -/
def rWitness : RResponse :=
  { choices := [{ message := { content := some "4", tool_calls := [] },
                  finish_reason := "stop" }],
    usage := some uWitness }

/-- The converted output of the C9 witness response. -/
def outWitness : ConverseOutput :=
  { message := { role := "assistant", content := some [{ text := some "4" }] },
    stopReason := "end_turn",
    usage := some (adjustUsage uWitness) }

/-- A rate-limit error. -/
def err429 : ApiErr := { status := some 429 }

/-- A non-transient error. -/
def err400 : ApiErr := { status := some 400 }

/-- A stream oracle whose first two attempts are malformed (messageStop with
no messageStart) and whose third attempt is well formed. -/
def twiceMalformedStreams : Nat → List StreamEvent := fun n =>
  if n < 2 then [StreamEvent.messageStop "end_turn"]
  else [StreamEvent.messageStart "assistant", StreamEvent.messageStop "end_turn"]

/-- A tool result block with id a and empty result content. -/
def trBlockA : CBlock :=
  { toolResult := some { toolUseId := some "a", content := some [], status := some "success" } }

/-- A tool result block with id b and empty result content. -/
def trBlockB : CBlock :=
  { toolResult := some { toolUseId := some "b", content := some [], status := some "success" } }

/-- A native message whose content is entirely ToolResult blocks, two of
them. -/
def twoResultsMsg : BMessage := { role := "user", content := some [trBlockA, trBlockB] }

/-- The single proxy tool message the converter emits for twoResultsMsg. -/
def toolMsgA : ChatMsg :=
  { role := "tool", tool_call_id := some "a",
    content := some (ProxyContent.str "[]"), cache_control := false }

/-- The first tool result record of twoResultsMsg. -/
def trRecordA : BToolResult :=
  { toolUseId := some "a", content := some [], status := some "success" }

/-- A chunk carrying a single text delta. -/
def textChunkX : PChunk := { choices := [{ delta := some { content := some "x" } }] }

/-- A chunk carrying a single reasoning delta. -/
def thinkChunkX : PChunk :=
  { choices := [{ delta := some { reasoning_content := some "x" } }] }

/-- A streamed tool call delta with id, name and argument fragment. -/
def toolCallX : DToolCall := { id := some "t1", name := some "srch", arguments := some "arg" }

/-- A chunk carrying a single tool call delta. -/
def toolChunkX : PChunk := { choices := [{ delta := some { tool_calls := some [toolCallX] } }] }

/-- A one-delta chunk of each kind, used to state the transition behaviour. -/
def kindChunk : BlockMode → PChunk
  | .text => textChunkX
  | .thinking => thinkChunkX
  | .tool => toolChunkX

/-- The first event a new block kind emits after a transition. -/
def newKindEvent : BlockMode → Nat → StreamEvent
  | .text, i => StreamEvent.contentBlockDelta i (NativeDelta.text "x")
  | .thinking, i => StreamEvent.contentBlockDelta i (NativeDelta.reasoningText "x")
  | .tool, i => StreamEvent.contentBlockStart i (some "srch") (some "t1")

/-- The event a delta of the already open kind emits. -/
def sameKindEvent : BlockMode → Nat → StreamEvent
  | .text, i => StreamEvent.contentBlockDelta i (NativeDelta.text "x")
  | .thinking, i => StreamEvent.contentBlockDelta i (NativeDelta.reasoningText "x")
  | .tool, i => StreamEvent.contentBlockDelta i (NativeDelta.toolInput "arg")

/-- A content block holding only a toolUse. -/
def useBlock (tu : BToolUse) : CBlock := { toolUse := some tu }

/-- The block batch of one assistant turn: a failing invocation followed
later by a succeeding one, with arbitrary surrounding blocks. -/
def batchBlocks (pre mid post : List CBlock) (tuA tuB : BToolUse) : List CBlock :=
  pre ++ useBlock tuA :: (mid ++ useBlock tuB :: post)

/-- The single tool-result message one batch produces. -/
def toolResultMsg (exec : String → JsonV → Except String JsonV)
    (applyGuard : String → Except String GuardResult) (cfg : GuardCfg)
    (blocks : List CBlock) : BMessage :=
  { role := "user", content := some (execToolBatch exec applyGuard cfg blocks) }

/-- A stub tool executor: tool a throws, every other tool succeeds. -/
def execW : String → JsonV → Except String JsonV :=
  fun n _ => if n = "a" then .error "boom" else .ok (JsonV.str "ok")

/-- A stub guardrail that never intervenes. -/
def guardW : String → Except String GuardResult := fun _ => .ok {}

/-- Guardrail settings with the guardrail disabled. -/
def cfgW : GuardCfg := {}

/-- A stub model turn that ends the conversation. -/
def turnW : List BMessage → List BMessage × Option String :=
  fun conv => (conv, some "end_turn")

/-- The failing invocation of the C5 witness. -/
def tuAW : BToolUse := { toolUseId := some "ta", name := some "a", input := JsonV.null }

/-- The succeeding invocation of the C5 witness. -/
def tuBW : BToolUse := { toolUseId := some "tb", name := some "b", input := JsonV.null }

/-- Association-list lookup on the toolUseIds map. -/
def lookupE (k : String) : List (String × PairEntry) → Option PairEntry
  | [] => none
  | (k2, e) :: rest => if k2 = k then some e else lookupE k rest

/-- Some message of the list records a use of the id. -/
def hasUseIn (msgs : List BMessage) (y : String) : Prop := ∃ m ∈ msgs, y ∈ usesOf m

/-- Some message of the list records a result for the id. -/
def hasResIn (msgs : List BMessage) (y : String) : Prop := ∃ m ∈ msgs, y ∈ resultsOf m

/-- The filterMap selector of indicesToDelete. -/
def deleteSel (p : String × PairEntry) : Option Nat :=
  if p.2.useIndex ≥ 0 ∧ p.2.resultIndex = -1 then some p.2.useIndex.toNat else none

/-- A block holding only a toolUse with the given id. -/
def useBlockOf (id : String) : CBlock := { toolUse := some { toolUseId := some id } }

/-- A block holding only a toolResult for the given id. -/
def resBlockOf (id : String) : CBlock := { toolResult := some { toolUseId := some id } }

/-- An assistant message using tool a. -/
def cexMsg0 : BMessage := { role := "assistant", content := some [useBlockOf "a"] }

/-- A message carrying the result for a and an unmatched use of b. -/
def cexMsg1 : BMessage := { role := "user", content := some [resBlockOf "a", useBlockOf "b"] }

/-- The two-message conversation with exactly one unmatched toolUse (b). -/
def cexMsgs : List BMessage := [cexMsg0, cexMsg1]

/-- A single message with one unmatched toolUse. -/
def wm0 : BMessage := { role := "assistant", content := some [useBlockOf "u"] }

/-! ## Theorems -/



/-- C8: mapStopReason is a total, deterministic function mapping stop to
end_turn, length to max_tokens, content_filter to content_filtered,
tool_calls to tool_use, and every other input to end_turn. -/
theorem mapStopReason_table :
    mapStopReason "stop" = "end_turn" ∧
    mapStopReason "length" = "max_tokens" ∧
    mapStopReason "content_filter" = "content_filtered" ∧
    mapStopReason "tool_calls" = "tool_use" ∧
    ∀ s : String, s ≠ "stop" → s ≠ "length" → s ≠ "content_filter" →
      s ≠ "tool_calls" → mapStopReason s = "end_turn" := by
  refine ⟨rfl, rfl, rfl, rfl, ?_⟩
  intro s h1 h2 h3 h4
  simp [mapStopReason, h1, h2, h3, h4]

/-- Witness for the default case of the stop-reason table. -/
theorem mapStopReason_table_witness : mapStopReason "whatever" = "end_turn" :=
  mapStopReason_table.2.2.2.2 "whatever" (by decide) (by decide) (by decide)
    (by decide)

/-- C10: listModels returns the empty list on every failure: missing
configuration, a failed fetch, a non-OK response, an unparsable body, and a
malformed model-info payload; being a total function it never rejects. -/
theorem listModels_total_empty_on_failure :
    (∀ o, listModels none o = []) ∧
    (∀ c m, listModels (some c) (FetchOutcome.netErr m) = []) ∧
    (∀ c st, listModels (some c) (FetchOutcome.notOk st) = []) ∧
    (∀ c, listModels (some c) FetchOutcome.jsonErr = []) ∧
    (∀ c, listModels (some c) (FetchOutcome.ok { data := none }) = []) :=
  ⟨fun _ => rfl, fun _ _ => rfl, fun _ _ => rfl, fun _ => rfl, fun _ => rfl⟩

/-- C4: a chunk carrying usage makes its cache-adjusted metadata event the
first event emitted for that chunk, in any machine state, including when the
chunk has no choices (where it is the only event); a chunk with neither
choices nor usage emits nothing and leaves the state unchanged. -/
theorem usage_metadata_immediate :
    (∀ (st : StState) (c : PChunk) (u : PUsage), c.usage = some u →
      (processChunk st c).2.head? =
        some (StreamEvent.metadata
          { cacheReadInputTokens := u.cache_read_input_tokens
            cacheWriteInputTokens := u.cache_creation_input_tokens
            inputTokens := u.prompt_tokens - u.cache_read_input_tokens
            outputTokens := u.completion_tokens
            totalTokens := u.total_tokens + u.cache_creation_input_tokens })) ∧
    (∀ (st : StState) (c : PChunk) (u : PUsage), c.usage = some u →
      c.choices = [] →
      processChunk st c =
        (st, [StreamEvent.metadata (adjustUsage u)])) ∧
    (∀ (st : StState) (c : PChunk), c.usage = none → c.choices = [] →
      processChunk st c = (st, [])) := by
  refine ⟨?_, ?_, ?_⟩
  · intro st c u hu
    obtain ⟨chs, us⟩ := c
    simp only at hu
    subst hu
    cases chs with
    | nil => rfl
    | cons choice rest =>
      show (processChunk st ⟨choice :: rest, some u⟩).2.head? = _
      simp only [processChunk, adjustUsage]
      rfl
  · intro st c u hu hc
    obtain ⟨chs, us⟩ := c
    simp only at hu hc
    subst hu; subst hc
    rfl
  · intro st c hu hc
    obtain ⟨chs, us⟩ := c
    simp only at hu hc
    subst hu; subst hc
    rfl

/-- Witness for C4 at a concrete state and chunk. -/
theorem usage_metadata_immediate_witness :
    (processChunk stWitness cWitness).2.head? =
      some (StreamEvent.metadata
        { cacheReadInputTokens := 40, cacheWriteInputTokens := 10,
          inputTokens := 60, outputTokens := 7, totalTokens := 117 }) :=
  usage_metadata_immediate.1 stWitness cWitness uWitness rfl

/-- C9: whenever a non-streaming proxy response reporting usage converts
successfully, the output usage satisfies inputTokens = prompt_tokens minus
cache_read_input_tokens, outputTokens = completion_tokens, and totalTokens =
total_tokens plus cache_creation_input_tokens. -/
theorem convertToBedrock_usage_adjusted :
    ∀ (parse : String → Option JsonV) (r : RResponse) (u : PUsage)
      (out : ConverseOutput),
      r.usage = some u → convertToBedrock parse r = some out →
      out.usage = some
        { cacheReadInputTokens := u.cache_read_input_tokens
          cacheWriteInputTokens := u.cache_creation_input_tokens
          inputTokens := u.prompt_tokens - u.cache_read_input_tokens
          outputTokens := u.completion_tokens
          totalTokens := u.total_tokens + u.cache_creation_input_tokens } := by
  intro parse r u out hu hconv
  unfold convertToBedrock at hconv
  cases hch : r.choices with
  | nil => rw [hch] at hconv; exact absurd hconv (by simp)
  | cons choice rest =>
    rw [hch] at hconv
    simp only at hconv
    cases hmm : choice.message.tool_calls.mapM (fun tc =>
        if tc.type = "function" then
          match parse tc.arguments with
          | some v =>
            let tu : BToolUse :=
              { toolUseId := tc.id, name := some tc.name, input := v }
            some [({ toolUse := some tu } : CBlock)]
          | none => none
        else some []) with
    | none => rw [hmm] at hconv; exact absurd hconv (by simp)
    | some toolBlocks =>
      rw [hmm] at hconv
      simp only [Option.some.injEq] at hconv
      subst hconv
      simp [hu, adjustUsage]

/-- Witness for C9 at a concrete response. -/
theorem convertToBedrock_usage_adjusted_witness :
    outWitness.usage = some
      { cacheReadInputTokens := 40, cacheWriteInputTokens := 10,
        inputTokens := 60, outputTokens := 7, totalTokens := 117 } :=
  convertToBedrock_usage_adjusted (fun _ => none) rWitness uWitness outWitness
    rfl rfl

/-- Unfolding step of the converse retry loop on a transient error below the
retry bound. -/
theorem converseWithRetry_step {α : Type} (f : Nat → Except ApiErr α) (r : Nat)
    (e : ApiErr) (h1 : f r = .error e) (h2 : isTransient e = true)
    (h3 : r < MAX_RETRIES) :
    converseWithRetry f r =
      ((converseWithRetry f (r + 1)).1,
        RetryEv.attempt r :: RetryEv.delay RETRY_DELAY ::
          (converseWithRetry f (r + 1)).2) := by
  rw [converseWithRetry]
  rw [h1]
  simp only [dif_pos (And.intro h2 h3)]

/-- Unfolding step of the converse retry loop when no retry is allowed. -/
theorem converseWithRetry_stop {α : Type} (f : Nat → Except ApiErr α) (r : Nat)
    (e : ApiErr) (h1 : f r = .error e)
    (h2 : isTransient e = true ∧ r < MAX_RETRIES → False) :
    converseWithRetry f r = (.error e, [RetryEv.attempt r]) := by
  rw [converseWithRetry]
  rw [h1]
  simp only [dif_neg h2]

/-- Unfolding step of the converseStream retry loop on a transient error
below the retry bound. -/
theorem converseStreamWithRetry_step {α : Type} (f : Nat → Except ApiErr α)
    (r : Nat) (e : ApiErr) (h1 : f r = .error e) (h2 : isTransient e = true)
    (h3 : r < MAX_RETRIES) :
    converseStreamWithRetry f r =
      ((converseStreamWithRetry f (r + 1)).1,
        RetryEv.attempt r :: RetryEv.delay RETRY_DELAY ::
          (converseStreamWithRetry f (r + 1)).2) := by
  rw [converseStreamWithRetry]
  rw [h1]
  simp only [dif_pos (And.intro h2 h3)]

/-- Unfolding step of the converseStream retry loop when no retry is
allowed. -/
theorem converseStreamWithRetry_stop {α : Type} (f : Nat → Except ApiErr α)
    (r : Nat) (e : ApiErr) (h1 : f r = .error e)
    (h2 : isTransient e = true ∧ r < MAX_RETRIES → False) :
    converseStreamWithRetry f r = (.error e, [RetryEv.attempt r]) := by
  rw [converseStreamWithRetry]
  rw [h1]
  simp only [dif_neg h2]

/-- C6: when every attempt fails with a transient status (429, 500, 503),
converse and converseStream make exactly MAX_RETRIES + 1 = 6 attempts with
the fixed RETRY_DELAY between consecutive attempts and raise the last error;
a first-attempt error with any other status propagates with no retry. -/
theorem retry_bound :
    (∀ (α : Type) (f : Nat → Except ApiErr α) (es : Nat → ApiErr),
      (∀ r, r ≤ MAX_RETRIES → f r = .error (es r)) →
      (∀ r, r ≤ MAX_RETRIES → isTransient (es r) = true) →
      converseWithRetry f 0 =
        (.error (es MAX_RETRIES),
          [RetryEv.attempt 0, RetryEv.delay RETRY_DELAY,
           RetryEv.attempt 1, RetryEv.delay RETRY_DELAY,
           RetryEv.attempt 2, RetryEv.delay RETRY_DELAY,
           RetryEv.attempt 3, RetryEv.delay RETRY_DELAY,
           RetryEv.attempt 4, RetryEv.delay RETRY_DELAY,
           RetryEv.attempt 5]) ∧
      converseStreamWithRetry f 0 =
        (.error (es MAX_RETRIES),
          [RetryEv.attempt 0, RetryEv.delay RETRY_DELAY,
           RetryEv.attempt 1, RetryEv.delay RETRY_DELAY,
           RetryEv.attempt 2, RetryEv.delay RETRY_DELAY,
           RetryEv.attempt 3, RetryEv.delay RETRY_DELAY,
           RetryEv.attempt 4, RetryEv.delay RETRY_DELAY,
           RetryEv.attempt 5])) ∧
    (∀ (α : Type) (f : Nat → Except ApiErr α) (e : ApiErr),
      f 0 = .error e → isTransient e = false →
      converseWithRetry f 0 = (.error e, [RetryEv.attempt 0]) ∧
      converseStreamWithRetry f 0 = (.error e, [RetryEv.attempt 0])) := by
  constructor
  · intro α f es hf ht
    have s0 := converseWithRetry_step f 0 (es 0) (hf 0 (by decide)) (ht 0 (by decide)) (by decide)
    have s1 := converseWithRetry_step f 1 (es 1) (hf 1 (by decide)) (ht 1 (by decide)) (by decide)
    have s2 := converseWithRetry_step f 2 (es 2) (hf 2 (by decide)) (ht 2 (by decide)) (by decide)
    have s3 := converseWithRetry_step f 3 (es 3) (hf 3 (by decide)) (ht 3 (by decide)) (by decide)
    have s4 := converseWithRetry_step f 4 (es 4) (hf 4 (by decide)) (ht 4 (by decide)) (by decide)
    have s5 := converseWithRetry_stop f 5 (es 5) (hf 5 (by decide))
      (fun hc => by exact absurd hc.2 (by decide))
    have t0 := converseStreamWithRetry_step f 0 (es 0) (hf 0 (by decide)) (ht 0 (by decide)) (by decide)
    have t1 := converseStreamWithRetry_step f 1 (es 1) (hf 1 (by decide)) (ht 1 (by decide)) (by decide)
    have t2 := converseStreamWithRetry_step f 2 (es 2) (hf 2 (by decide)) (ht 2 (by decide)) (by decide)
    have t3 := converseStreamWithRetry_step f 3 (es 3) (hf 3 (by decide)) (ht 3 (by decide)) (by decide)
    have t4 := converseStreamWithRetry_step f 4 (es 4) (hf 4 (by decide)) (ht 4 (by decide)) (by decide)
    have t5 := converseStreamWithRetry_stop f 5 (es 5) (hf 5 (by decide))
      (fun hc => by exact absurd hc.2 (by decide))
    constructor
    · rw [s0, s1, s2, s3, s4, s5]
      rfl
    · rw [t0, t1, t2, t3, t4, t5]
      rfl
  · intro α f e hf hnt
    constructor
    · exact converseWithRetry_stop f 0 e hf (fun hc => by rw [hnt] at hc; exact absurd hc.1 (by decide))
    · exact converseStreamWithRetry_stop f 0 e hf (fun hc => by rw [hnt] at hc; exact absurd hc.1 (by decide))

/-- Witness for C6: a stub transport that always rate-limits yields six
attempts and the last error; a validation error propagates immediately. -/
theorem retry_bound_witness :
    (converseWithRetry (fun _ => (.error err429 : Except ApiErr Unit)) 0 =
      (.error err429,
        [RetryEv.attempt 0, RetryEv.delay RETRY_DELAY,
         RetryEv.attempt 1, RetryEv.delay RETRY_DELAY,
         RetryEv.attempt 2, RetryEv.delay RETRY_DELAY,
         RetryEv.attempt 3, RetryEv.delay RETRY_DELAY,
         RetryEv.attempt 4, RetryEv.delay RETRY_DELAY,
         RetryEv.attempt 5])) ∧
    (converseWithRetry (fun _ => (.error err400 : Except ApiErr Unit)) 0 =
      (.error err400, [RetryEv.attempt 0])) := by
  constructor
  · exact (retry_bound.1 Unit (fun _ => .error err429) (fun _ => err429)
      (fun _ _ => rfl) (fun _ _ => rfl)).1
  · exact (retry_bound.2 Unit (fun _ => .error err400) err400 rfl rfl).1

/-- Counterexample to C7: after a malformed stream and a malformed first
retry, streamChat retries again (a third attempt runs and completes
normally) instead of falling through to the request-error path; the retry
is not bounded to one. -/
theorem streamchat_retry_counterexample :
    streamChatRetries twiceMalformedStreams 10 0 = some (some "end_turn", 3) := by
  rfl

/-- C7 amended: on messageStop without a preceding messageStart, streamChat
silently re-invokes itself with the same arguments, each malformed attempt
triggering a further full retry without bound; an attempt whose stream is
well formed completes normally with its stop reason. -/
theorem streamchat_retry_unbounded :
    (∀ (streams : Nat → List StreamEvent) (fuel n : Nat),
      scanStream (streams n) false none = ScanResult.retry →
      streamChatRetries streams (fuel + 1) n = streamChatRetries streams fuel (n + 1)) ∧
    (∀ (streams : Nat → List StreamEvent) (fuel n : Nat) (sr : Option String),
      scanStream (streams n) false none = ScanResult.done sr →
      streamChatRetries streams (fuel + 1) n = some (sr, n + 1)) := by
  constructor
  · intro streams fuel n h
    simp [streamChatRetries, h]
  · intro streams fuel n sr h
    simp [streamChatRetries, h]

/-- Witness for C7 amended: a concrete malformed attempt recurses, and a
concrete well-formed attempt completes. -/
theorem streamchat_retry_unbounded_witness :
    (streamChatRetries twiceMalformedStreams 3 0 =
      streamChatRetries twiceMalformedStreams 2 1) ∧
    (streamChatRetries twiceMalformedStreams 1 2 = some (some "end_turn", 3)) :=
  ⟨streamchat_retry_unbounded.1 twiceMalformedStreams 2 0 rfl,
   streamchat_retry_unbounded.2 twiceMalformedStreams 0 2 (some "end_turn") rfl⟩

/-- Counterexample to C2: a message holding two ToolResult blocks yields one
proxy tool message (for the first block only), not one per result. -/
theorem preparemessages_toolresult_counterexample :
    prepareMessages [twoResultsMsg] [] = [toolMsgA] ∧
    (prepareMessages [twoResultsMsg] []).length ≠ 2 := by
  constructor
  · rfl
  · decide

/-- C2 amended: a native message whose content is entirely ToolResult blocks
contributes exactly one proxy tool message, built from the first block only,
carrying that first result's invocation id as tool_call_id. -/
theorem preparemessages_first_toolresult_only :
    ∀ (sys : List SystemBlock) (pre post : List BMessage) (m : BMessage)
      (b : CBlock) (rest : List CBlock) (tr : BToolResult) (l : List TRContent),
      m.content = some (b :: rest) →
      b.toolResult = some tr →
      tr.content = some l →
      (∀ b2 ∈ b :: rest, b2.toolResult.isSome = true) →
      prepareMessages (pre ++ m :: post) sys =
        prepareMessages pre sys ++
          ({ role := "tool", tool_call_id := tr.toolUseId,
             content := some (ProxyContent.str (renderTRList l)),
             cache_control := convertCacheControl (b :: rest) } : ChatMsg) ::
          prepareMessages post [] := by
  intro sys pre post m b rest tr l h1 h2 h3 _
  have hone : convertOneMsg m =
      [({ role := "tool", tool_call_id := tr.toolUseId,
          content := some (ProxyContent.str (renderTRList l)),
          cache_control := convertCacheControl (b :: rest) } : ChatMsg)] := by
    simp only [convertOneMsg, h1, h2, h3]
  simp only [prepareMessages, systemMsgs, List.flatMap_append, List.flatMap_cons, hone,
    List.append_assoc, List.singleton_append, List.nil_append]

/-- Witness for C2 amended at the concrete two-result message. -/
theorem preparemessages_first_toolresult_only_witness :
    prepareMessages ([] ++ twoResultsMsg :: []) [] =
      prepareMessages [] [] ++
        ({ role := "tool", tool_call_id := trRecordA.toolUseId,
           content := some (ProxyContent.str (renderTRList [])),
           cache_control := convertCacheControl (trBlockA :: [trBlockB]) } : ChatMsg) ::
        prepareMessages [] [] :=
  preparemessages_first_toolresult_only [] [] [] twoResultsMsg trBlockA [trBlockB]
    trRecordA [] rfl rfl rfl (by decide)

/-- Counterexample to C1: a text block opens at index 0 and a thinking delta
then arrives; the emitted sequence contains no contentBlockStop at all for
the open text block before the thinking delta, because the source guards the
stop with contentBlockIndex greater than 0. -/
theorem stream_transition_counterexample :
    convertStreamToBedrock [textChunkX, thinkChunkX] =
      [StreamEvent.messageStart "assistant",
       StreamEvent.contentBlockDelta 0 (NativeDelta.text "x"),
       StreamEvent.contentBlockDelta 1 (NativeDelta.reasoningText "x")] ∧
    StreamEvent.contentBlockStop 0 ∉ convertStreamToBedrock [textChunkX, thinkChunkX] := by
  constructor
  · rfl
  · decide

/-- C1 amended: when a delta of a new kind arrives while a block of a
different kind is open, the block index increments by one and the new
kind's first event carries the incremented index, preceded by a
contentBlockStop for the previous block exactly when that block's index is
greater than 0 (a transition out of block 0 emits no stop); a delta of the
already open kind reuses the same index with no stop or start events. -/
theorem stream_transition_indexing :
    (∀ (i : Nat) (m k : BlockMode), k ≠ m →
      processChunk { isFirstChunk := false, contentBlockIndex := i, mode := some m }
          (kindChunk k) =
        ({ isFirstChunk := false, contentBlockIndex := i + 1, mode := some k },
         (if 0 < i then [StreamEvent.contentBlockStop i] else []) ++
           [newKindEvent k (i + 1)])) ∧
    (∀ (i : Nat) (m : BlockMode),
      processChunk { isFirstChunk := false, contentBlockIndex := i, mode := some m }
          (kindChunk m) =
        ({ isFirstChunk := false, contentBlockIndex := i, mode := some m },
         [sameKindEvent m i])) := by
  have harg : jsTrim "arg" ≠ "\x7b\x7d" := by decide
  constructor
  · intro i m k hk
    cases m <;> cases k <;> simp_all [processChunk, kindChunk, textChunkX, thinkChunkX,
      toolChunkX, toolCallX, newKindEvent, processToolCalls, strTruthy]
  · intro i m
    cases m <;> simp [processChunk, kindChunk, textChunkX, thinkChunkX,
      toolChunkX, toolCallX, sameKindEvent, processToolCalls, strTruthy, harg]

/-- Witness for C1 amended: a thinking delta arriving while text block 0 is
open increments the index to 1 and emits no stop for block 0. -/
theorem stream_transition_indexing_witness :
    processChunk { isFirstChunk := false, contentBlockIndex := 0, mode := some BlockMode.text }
        (kindChunk BlockMode.thinking) =
      ({ isFirstChunk := false, contentBlockIndex := 1, mode := some BlockMode.thinking },
       (if 0 < 0 then [StreamEvent.contentBlockStop 0] else []) ++
         [newKindEvent BlockMode.thinking 1]) :=
  stream_transition_indexing.1 0 BlockMode.text BlockMode.thinking (by decide)

/-- Positions of two distinguished elements inside a list split. -/
theorem getElem_split_positions {α : Type} (L1 L2 L3 : List α) (a b : α) :
    (L1 ++ a :: (L2 ++ b :: L3))[L1.length]? = some a ∧
    (L1 ++ a :: (L2 ++ b :: L3))[L1.length + 1 + L2.length]? = some b := by
  constructor
  · rw [List.getElem?_append_right (Nat.le_refl _)]
    simp
  · rw [List.getElem?_append_right (by omega)]
    have h1 : L1.length + 1 + L2.length - L1.length = L2.length + 1 := by omega
    rw [h1]
    rw [List.getElem?_cons_succ]
    rw [List.getElem?_append_right (Nat.le_refl _)]
    simp

/-- C5: with guardrail disabled, when an earlier tool in a batch throws and
a later one succeeds, the batch still executes the later tool: the single
tool-result message contains the error result of the failed tool and the
success result of the succeeding tool at increasing positions (original
order), and the loop issues another model call on the conversation extended
by exactly that message. -/
theorem toolbatch_independence :
    ∀ (exec : String → JsonV → Except String JsonV)
      (applyGuard : String → Except String GuardResult) (cfg : GuardCfg)
      (turn : List BMessage → List BMessage × Option String) (fuel : Nat)
      (pre mid post : List CBlock) (tuA tuB : BToolUse) (msgs : List BMessage)
      (eA : String) (rB : JsonV),
      cfg.enabled = false →
      strTruthy tuA.name = true → strTruthy tuB.name = true →
      exec (tuA.name.getD "") tuA.input = .error eA →
      exec (tuB.name.getD "") tuB.input = .ok rB →
      (execToolBatch exec applyGuard cfg (batchBlocks pre mid post tuA tuB) =
        execToolBatch exec applyGuard cfg pre ++
          errorResultBlock tuA.toolUseId eA ::
            (execToolBatch exec applyGuard cfg mid ++
              successResultBlock tuB.toolUseId rB ::
                execToolBatch exec applyGuard cfg post)) ∧
      ((execToolBatch exec applyGuard cfg (batchBlocks pre mid post tuA tuB))[
          (execToolBatch exec applyGuard cfg pre).length]? =
        some (errorResultBlock tuA.toolUseId eA)) ∧
      ((execToolBatch exec applyGuard cfg (batchBlocks pre mid post tuA tuB))[
          (execToolBatch exec applyGuard cfg pre).length + 1 +
            (execToolBatch exec applyGuard cfg mid).length]? =
        some (successResultBlock tuB.toolUseId rB)) ∧
      ((execToolBatch exec applyGuard cfg pre).length <
        (execToolBatch exec applyGuard cfg pre).length + 1 +
          (execToolBatch exec applyGuard cfg mid).length) ∧
      ((recursivelyExecToolModel exec applyGuard cfg turn (fuel + 1)
          (batchBlocks pre mid post tuA tuB) msgs).2.head? =
        some (msgs ++ [toolResultMsg exec applyGuard cfg
          (batchBlocks pre mid post tuA tuB)])) := by
  intro exec applyGuard cfg turn fuel pre mid post tuA tuB msgs eA rB
  intro hg hA hB hexA hexB
  have hone : execOneTool exec applyGuard cfg (useBlock tuA) =
      some (errorResultBlock tuA.toolUseId eA) := by
    simp [execOneTool, useBlock, hA, hexA]
  have htwo : execOneTool exec applyGuard cfg (useBlock tuB) =
      some (successResultBlock tuB.toolUseId rB) := by
    simp [execOneTool, useBlock, hB, hexB, hg]
  have hbatch : execToolBatch exec applyGuard cfg (batchBlocks pre mid post tuA tuB) =
      execToolBatch exec applyGuard cfg pre ++
        errorResultBlock tuA.toolUseId eA ::
          (execToolBatch exec applyGuard cfg mid ++
            successResultBlock tuB.toolUseId rB ::
              execToolBatch exec applyGuard cfg post) := by
    simp [execToolBatch, batchBlocks, List.filterMap_append, List.filterMap_cons, hone, htwo]
  refine ⟨hbatch, ?_, ?_, by omega, ?_⟩
  · rw [hbatch]
    exact (getElem_split_positions _ _ _ _ _).1
  · rw [hbatch]
    exact (getElem_split_positions _ _ _ _ _).2
  · have hany : ((batchBlocks pre mid post tuA tuB).any fun b => b.toolUse.isSome) = true := by
      apply List.any_eq_true.2
      exact ⟨useBlock tuA, by simp [batchBlocks], by simp [useBlock]⟩
    simp only [recursivelyExecToolModel, oneRound, hany, if_true]
    rcases hturn : turn (msgs ++ [toolResultMsg exec applyGuard cfg
        (batchBlocks pre mid post tuA tuB)]) with ⟨conv2, sr⟩
    simp only [toolResultMsg] at hturn
    simp only [hturn]
    by_cases hsr : sr = some "tool_use"
    · subst hsr
      simp only [if_pos rfl]
      cases hlast : conv2.getLast? with
      | none => simp [toolResultMsg]
      | some lastMsg =>
        cases hc : lastMsg.content with
        | none => simp [hc, toolResultMsg]
        | some lastBlocks => simp [hc, toolResultMsg]
    · simp [hsr, toolResultMsg]

/-- Witness for C5: the concrete two-tool batch with a failing first tool
produces the error result then the success result. -/
theorem toolbatch_independence_witness :
    execToolBatch execW guardW cfgW (batchBlocks [] [] [] tuAW tuBW) =
      execToolBatch execW guardW cfgW [] ++
        errorResultBlock tuAW.toolUseId "boom" ::
          (execToolBatch execW guardW cfgW [] ++
            successResultBlock tuBW.toolUseId (JsonV.str "ok") ::
              execToolBatch execW guardW cfgW []) :=
  (toolbatch_independence execW guardW cfgW turnW 0 [] [] [] tuAW tuBW [] "boom"
    (JsonV.str "ok") rfl (by decide) (by decide) (by simp [execW, tuAW])
    (by simp [execW, tuBW])).1

/-- Lookup after an upsert: the upserted key sees the updated entry (from
the default when absent), other keys are untouched. -/
theorem lookupE_upsertEntry (y k : String) (f : PairEntry → PairEntry) :
    ∀ l : List (String × PairEntry),
      lookupE y (upsertEntry k f l) =
        if k = y then some (f ((lookupE k l).getD {})) else lookupE y l := by
  intro l
  induction l with
  | nil =>
    by_cases h : k = y <;> simp [upsertEntry, lookupE, h]
  | cons p rest ih =>
    obtain ⟨k2, e⟩ := p
    by_cases h2 : k2 = k
    · subst h2
      by_cases hy : k2 = y <;> simp [upsertEntry, lookupE, hy]
    · by_cases hy : k2 = y
      · subst hy
        have hky : ¬(k = k2) := fun h => h2 h.symm
        simp [upsertEntry, lookupE, h2, hky]
      · simp [upsertEntry, lookupE, h2, hy, ih]

/-- The keys of an upserted map: unchanged when present, appended when
absent. -/
theorem upsertEntry_keys (k : String) (f : PairEntry → PairEntry) :
    ∀ l : List (String × PairEntry),
      (upsertEntry k f l).map Prod.fst =
        if k ∈ l.map Prod.fst then l.map Prod.fst else l.map Prod.fst ++ [k] := by
  intro l
  induction l with
  | nil => simp [upsertEntry]
  | cons p rest ih =>
    obtain ⟨k2, e⟩ := p
    by_cases h2 : k2 = k
    · subst h2
      simp [upsertEntry]
    · have h2n : ¬(k = k2) := fun h => h2 h.symm
      by_cases hk : k ∈ rest.map Prod.fst <;> simp [upsertEntry, h2, h2n, hk, ih]

/-- Upserting preserves key uniqueness. -/
theorem upsertEntry_nodup (k : String) (f : PairEntry → PairEntry)
    (l : List (String × PairEntry)) (h : (l.map Prod.fst).Nodup) :
    ((upsertEntry k f l).map Prod.fst).Nodup := by
  rw [upsertEntry_keys]
  by_cases hk : k ∈ l.map Prod.fst
  · simp [hk, h]
  · simp only [hk, if_false]
    rw [List.nodup_append]
    exact ⟨h, List.nodup_singleton k, by simp [hk]⟩

/-- A successful lookup is a member of the association list. -/
theorem mem_of_lookupE (y : String) (e : PairEntry) :
    ∀ l : List (String × PairEntry), lookupE y l = some e → (y, e) ∈ l := by
  intro l
  induction l with
  | nil => intro h; exact absurd h (by simp [lookupE])
  | cons p rest ih =>
    obtain ⟨k2, e2⟩ := p
    intro h
    by_cases h2 : k2 = y
    · subst h2
      simp [lookupE] at h
      simp [h]
    · simp [lookupE, h2] at h
      exact List.mem_cons_of_mem _ (ih h)

/-- With unique keys, membership determines the lookup. -/
theorem lookupE_of_mem_nodup (y : String) (e : PairEntry) :
    ∀ l : List (String × PairEntry), (y, e) ∈ l → (l.map Prod.fst).Nodup →
      lookupE y l = some e := by
  intro l
  induction l with
  | nil => intro h; exact absurd h (by simp)
  | cons p rest ih =>
    obtain ⟨k2, e2⟩ := p
    intro hmem hnd
    rcases List.mem_cons.1 hmem with heq | htail
    · obtain ⟨h1, h2⟩ := Prod.mk.injEq .. ▸ heq
      simp [lookupE, h1.symm, h2]
    · have hk2 : k2 ≠ y := by
        intro hk
        subst hk
        rw [List.map_cons, List.nodup_cons] at hnd
        exact hnd.1 (List.mem_map.2 ⟨(k2, e), htail, rfl⟩)
      simp only [lookupE, if_neg hk2]
      rw [List.map_cons, List.nodup_cons] at hnd
      exact ih htail hnd.2

/-- Lookup after scanning one block: the block's use and result ids are
stamped with the message index, other keys are untouched. -/
theorem scanBlock_lookup (i : Nat) (y : String) (m : List (String × PairEntry))
    (b : CBlock) :
    lookupE y (scanBlock i m b) =
      if blockUseId b = some y ∨ blockResId b = some y then
        some { useIndex := if blockUseId b = some y then (i : Int)
                 else ((lookupE y m).getD {}).useIndex,
               resultIndex := if blockResId b = some y then (i : Int)
                 else ((lookupE y m).getD {}).resultIndex }
      else lookupE y m := by
  unfold scanBlock
  cases hu : blockUseId b with
  | none =>
    cases hr : blockResId b with
    | none => simp
    | some idr =>
      by_cases hry : idr = y
      · subst hry
        simp [lookupE_upsertEntry]
      · simp [lookupE_upsertEntry, hry]
  | some idu =>
    cases hr : blockResId b with
    | none =>
      by_cases huy : idu = y
      · subst huy
        simp [lookupE_upsertEntry]
      · simp [lookupE_upsertEntry, huy]
    | some idr =>
      by_cases huy : idu = y <;> by_cases hry : idr = y
      · subst huy; subst hry
        simp [lookupE_upsertEntry]
      · subst huy
        simp [lookupE_upsertEntry, hry]
      · subst hry
        simp [lookupE_upsertEntry, huy]
      · simp [lookupE_upsertEntry, huy, hry]

/-- Membership in the use ids of a cons. -/
theorem mem_useIds_cons (y : String) (b : CBlock) (rest : List CBlock) :
    y ∈ useIds (b :: rest) ↔ blockUseId b = some y ∨ y ∈ useIds rest := by
  simp only [useIds, List.filterMap_cons]
  cases hu : blockUseId b with
  | none => simp
  | some idu =>
    simp [List.mem_cons, eq_comm]

/-- Membership in the result ids of a cons. -/
theorem mem_resIds_cons (y : String) (b : CBlock) (rest : List CBlock) :
    y ∈ resIds (b :: rest) ↔ blockResId b = some y ∨ y ∈ resIds rest := by
  simp only [resIds, List.filterMap_cons]
  cases hr : blockResId b with
  | none => simp
  | some idr =>
    simp [List.mem_cons, eq_comm]

/-- Lookup after scanning a block list: recorded ids are stamped with the
message index, other keys untouched. -/
theorem scanBlocks_lookup (i : Nat) (y : String) :
    ∀ (blocks : List CBlock) (m : List (String × PairEntry)),
      lookupE y (blocks.foldl (scanBlock i) m) =
        if y ∈ useIds blocks ∨ y ∈ resIds blocks then
          some { useIndex := if y ∈ useIds blocks then (i : Int)
                   else ((lookupE y m).getD {}).useIndex,
                 resultIndex := if y ∈ resIds blocks then (i : Int)
                   else ((lookupE y m).getD {}).resultIndex }
        else lookupE y m := by
  intro blocks
  induction blocks with
  | nil => intro m; simp [useIds, resIds]
  | cons b rest ih =>
    intro m
    rw [List.foldl_cons, ih, scanBlock_lookup]
    by_cases hub : blockUseId b = some y <;>
      by_cases hrb : blockResId b = some y <;>
        by_cases hur : y ∈ useIds rest <;>
          by_cases hrr : y ∈ resIds rest <;>
            simp [mem_useIds_cons, mem_resIds_cons, hub, hrb, hur, hrr]

/-- Scanning a block preserves key uniqueness. -/
theorem scanBlock_nodup (i : Nat) (m : List (String × PairEntry)) (b : CBlock)
    (h : (m.map Prod.fst).Nodup) : ((scanBlock i m b).map Prod.fst).Nodup := by
  unfold scanBlock
  cases hu : blockUseId b with
  | none =>
    cases hr : blockResId b with
    | none => exact h
    | some idr => exact upsertEntry_nodup _ _ _ h
  | some idu =>
    cases hr : blockResId b with
    | none => exact upsertEntry_nodup _ _ _ h
    | some idr => exact upsertEntry_nodup _ _ _ (upsertEntry_nodup _ _ _ h)

/-- Scanning a block list preserves key uniqueness. -/
theorem scanBlocks_nodup (i : Nat) :
    ∀ (blocks : List CBlock) (m : List (String × PairEntry)),
      (m.map Prod.fst).Nodup → ((blocks.foldl (scanBlock i) m).map Prod.fst).Nodup := by
  intro blocks
  induction blocks with
  | nil => intro m h; exact h
  | cons b rest ih =>
    intro m h
    rw [List.foldl_cons]
    exact ih _ (scanBlock_nodup i m b h)

/-- The toolUseIds map has unique keys. -/
theorem buildPairMap_nodup (msgs : List BMessage) :
    ((buildPairMap msgs).map Prod.fst).Nodup := by
  have haux : ∀ (rest : List BMessage) (i : Nat) (m : List (String × PairEntry)),
      (m.map Prod.fst).Nodup → ((buildPairMapAux i rest m).map Prod.fst).Nodup := by
    intro rest
    induction rest with
    | nil => intro i m h; exact h
    | cons msg tail ih =>
      intro i m h
      exact ih _ _ (scanBlocks_nodup i _ m h)
  exact haux msgs 0 [] (by simp)

/-- Splitting the message scan at an append. -/
theorem buildPairMapAux_append :
    ∀ (pre suf : List BMessage) (i : Nat) (m : List (String × PairEntry)),
      buildPairMapAux i (pre ++ suf) m =
        buildPairMapAux (i + pre.length) suf (buildPairMapAux i pre m) := by
  intro pre
  induction pre with
  | nil => intro suf i m; simp [buildPairMapAux]
  | cons msg rest ih =>
    intro suf i m
    have hstep : buildPairMapAux i ((msg :: rest) ++ suf) m =
        buildPairMapAux (i + 1) (rest ++ suf) (scanMsg i m msg) := rfl
    rw [hstep, ih]
    have h1 : i + 1 + rest.length = i + (msg :: rest).length := by
      simp only [List.length_cons]
      omega
    rw [h1]
    rfl

/-- Use occurrences across an appended singleton. -/
theorem hasUseIn_append (msgs : List BMessage) (msg : BMessage) (y : String) :
    hasUseIn (msgs ++ [msg]) y ↔ hasUseIn msgs y ∨ y ∈ usesOf msg := by
  constructor
  · rintro ⟨m, hm, hy⟩
    rcases List.mem_append.1 hm with h | h
    · exact Or.inl ⟨m, h, hy⟩
    · rw [List.mem_singleton.1 h] at hy
      exact Or.inr hy
  · rintro (⟨m, hm, hy⟩ | hy)
    · exact ⟨m, List.mem_append_left _ hm, hy⟩
    · exact ⟨msg, List.mem_append_right _ (List.mem_singleton_self _), hy⟩

/-- Result occurrences across an appended singleton. -/
theorem hasResIn_append (msgs : List BMessage) (msg : BMessage) (y : String) :
    hasResIn (msgs ++ [msg]) y ↔ hasResIn msgs y ∨ y ∈ resultsOf msg := by
  constructor
  · rintro ⟨m, hm, hy⟩
    rcases List.mem_append.1 hm with h | h
    · exact Or.inl ⟨m, h, hy⟩
    · rw [List.mem_singleton.1 h] at hy
      exact Or.inr hy
  · rintro (⟨m, hm, hy⟩ | hy)
    · exact ⟨m, List.mem_append_left _ hm, hy⟩
    · exact ⟨msg, List.mem_append_right _ (List.mem_singleton_self _), hy⟩

/-- The map of an extended message list is the old map scanned over the new
message at its index. -/
theorem buildPairMap_append (msgs : List BMessage) (msg : BMessage) :
    buildPairMap (msgs ++ [msg]) =
      (msg.content.getD []).foldl (scanBlock msgs.length) (buildPairMap msgs) := by
  unfold buildPairMap
  rw [buildPairMapAux_append]
  simp [buildPairMapAux, scanMsg]

/-- Characterization of the toolUseIds map: an absent key has no recorded
occurrence; a present entry carries -1 exactly for absent occurrences and
otherwise a message index actually holding such an occurrence. -/
theorem pairMap_spec :
    ∀ (msgs : List BMessage) (y : String),
      (lookupE y (buildPairMap msgs) = none → ¬ hasUseIn msgs y ∧ ¬ hasResIn msgs y) ∧
      (∀ e, lookupE y (buildPairMap msgs) = some e →
        ((e.useIndex = -1 ∧ ¬ hasUseIn msgs y) ∨
          (∃ (j : Nat) (mj : BMessage), msgs[j]? = some mj ∧ y ∈ usesOf mj ∧
            e.useIndex = (j : Int))) ∧
        ((e.resultIndex = -1 ∧ ¬ hasResIn msgs y) ∨
          (∃ (j : Nat) (mj : BMessage), msgs[j]? = some mj ∧ y ∈ resultsOf mj ∧
            e.resultIndex = (j : Int)))) := by
  intro msgs
  induction msgs using List.reverseRecOn with
  | nil =>
    intro y
    constructor
    · intro _
      constructor
      · rintro ⟨m, hm, _⟩; exact absurd hm (by simp)
      · rintro ⟨m, hm, _⟩; exact absurd hm (by simp)
    · intro e he
      exact absurd he (by simp [buildPairMap, buildPairMapAux, lookupE])
  | append_singleton msgs msg ih =>
    intro y
    have hlk := scanBlocks_lookup msgs.length y (msg.content.getD []) (buildPairMap msgs)
    have husi : useIds (msg.content.getD []) = usesOf msg := rfl
    have hrsi : resIds (msg.content.getD []) = resultsOf msg := rfl
    rw [husi, hrsi] at hlk
    rw [buildPairMap_append, hlk]
    have hgetlast : (msgs ++ [msg])[msgs.length]? = some msg := by
      rw [List.getElem?_append_right (Nat.le_refl _)]
      simp
    have hgetlt : ∀ (j : Nat) (mj : BMessage), msgs[j]? = some mj →
        (msgs ++ [msg])[j]? = some mj := by
      intro j mj hj
      have hjl : j < msgs.length := by
        rcases List.getElem?_eq_some.1 hj with ⟨h, _⟩
        exact h
      rw [List.getElem?_append, if_pos hjl]
      exact hj
    by_cases hu : y ∈ usesOf msg <;> by_cases hr : y ∈ resultsOf msg
    · -- use and result both recorded on the new message
      simp only [hu, hr, true_or, or_true, if_pos, if_true]
      constructor
      · intro h; exact absurd h (by simp)
      · intro e he
        rw [Option.some.injEq] at he
        subst he
        constructor
        · exact Or.inr ⟨msgs.length, msg, hgetlast, hu, by simp [hu]⟩
        · exact Or.inr ⟨msgs.length, msg, hgetlast, hr, by simp [hr]⟩
    · -- only a use recorded on the new message
      simp only [hu, hr, true_or, if_true, if_false]
      constructor
      · intro h; exact absurd h (by simp)
      · intro e he
        rw [Option.some.injEq] at he
        subst he
        constructor
        · exact Or.inr ⟨msgs.length, msg, hgetlast, hu, by simp [hu]⟩
        · -- result slot inherited from the old map
          cases hold : lookupE y (buildPairMap msgs) with
          | none =>
            have hno := (ih y).1 hold
            refine Or.inl ⟨by simp [hold], ?_⟩
            rw [hasResIn_append]
            rintro (h | h)
            · exact hno.2 h
            · exact hr h
          | some eold =>
            have hspec := ((ih y).2 eold hold).2
            rcases hspec with ⟨hm1, hm2⟩ | ⟨j, mj, hj, hyj, hje⟩
            · refine Or.inl ⟨by simp [hold, hm1], ?_⟩
              rw [hasResIn_append]
              rintro (h | h)
              · exact hm2 h
              · exact hr h
            · exact Or.inr ⟨j, mj, hgetlt j mj hj, hyj, by simp [hold, hje]⟩
    · -- only a result recorded on the new message
      simp only [hu, hr, or_true, if_true, if_false]
      constructor
      · intro h; exact absurd h (by simp)
      · intro e he
        rw [Option.some.injEq] at he
        subst he
        constructor
        · cases hold : lookupE y (buildPairMap msgs) with
          | none =>
            have hno := (ih y).1 hold
            refine Or.inl ⟨by simp [hold], ?_⟩
            rw [hasUseIn_append]
            rintro (h | h)
            · exact hno.1 h
            · exact hu h
          | some eold =>
            have hspec := ((ih y).2 eold hold).1
            rcases hspec with ⟨hm1, hm2⟩ | ⟨j, mj, hj, hyj, hje⟩
            · refine Or.inl ⟨by simp [hold, hm1], ?_⟩
              rw [hasUseIn_append]
              rintro (h | h)
              · exact hm2 h
              · exact hu h
            · exact Or.inr ⟨j, mj, hgetlt j mj hj, hyj, by simp [hold, hje]⟩
        · exact Or.inr ⟨msgs.length, msg, hgetlast, hr, by simp [hr]⟩
    · -- nothing recorded on the new message: the map entry is unchanged
      simp only [hu, hr, or_self, if_false]
      constructor
      · intro hnone
        have hno := (ih y).1 hnone
        constructor
        · rw [hasUseIn_append]
          rintro (h | h)
          · exact hno.1 h
          · exact hu h
        · rw [hasResIn_append]
          rintro (h | h)
          · exact hno.2 h
          · exact hr h
      · intro e he
        have hspec := (ih y).2 e he
        constructor
        · rcases hspec.1 with ⟨hm1, hm2⟩ | ⟨j, mj, hj, hyj, hje⟩
          · refine Or.inl ⟨hm1, ?_⟩
            rw [hasUseIn_append]
            rintro (h | h)
            · exact hm2 h
            · exact hu h
          · exact Or.inr ⟨j, mj, hgetlt j mj hj, hyj, hje⟩
        · rcases hspec.2 with ⟨hm1, hm2⟩ | ⟨j, mj, hj, hyj, hje⟩
          · refine Or.inl ⟨hm1, ?_⟩
            rw [hasResIn_append]
            rintro (h | h)
            · exact hm2 h
            · exact hr h
          · exact Or.inr ⟨j, mj, hgetlt j mj hj, hyj, hje⟩

/-- Deduplicating a constant list with the value already seen gives
nothing. -/
theorem dedupNatAux_all_seen (i : Nat) :
    ∀ (l : List Nat) (seen : List Nat), (∀ a ∈ l, a = i) → i ∈ seen →
      dedupNatAux seen l = [] := by
  intro l
  induction l with
  | nil => intro seen _ _; rfl
  | cons a rest ih =>
    intro seen hall hseen
    have ha : a = i := hall a (List.mem_cons_self a rest)
    subst ha
    rw [dedupNatAux, if_pos hseen]
    exact ih seen (fun b hb => hall b (List.mem_cons_of_mem a hb)) hseen

/-- Deduplicating a non-empty constant list yields the singleton. -/
theorem dedupNat_all_eq (l : List Nat) (i : Nat) (hne : l ≠ [])
    (hall : ∀ a ∈ l, a = i) : dedupNat l = [i] := by
  cases l with
  | nil => exact absurd rfl hne
  | cons a rest =>
    have ha : a = i := hall a (List.mem_cons_self a rest)
    subst ha
    unfold dedupNat
    rw [dedupNatAux, if_neg (by simp)]
    rw [dedupNatAux_all_seen a rest (a :: []) (fun b hb => hall b (List.mem_cons_of_mem a hb))
      (List.mem_singleton_self a)]

/-- An element of a list with an index erased sits at some other index of
the original list. -/
theorem mem_eraseIdx_position {α : Type} (l : List α) (i : Nat) (a : α)
    (h : a ∈ l.eraseIdx i) : ∃ k : Nat, k ≠ i ∧ l[k]? = some a := by
  rw [List.eraseIdx_eq_take_drop_succ] at h
  rcases List.mem_append.1 h with ht | hd
  · obtain ⟨n, hn, he⟩ := List.mem_iff_getElem.1 ht
    have hni : n < i := lt_of_lt_of_le hn (by simp [List.length_take])
    refine ⟨n, Nat.ne_of_lt hni, ?_⟩
    rw [← List.getElem?_take_of_lt hni]
    rw [List.getElem?_eq_getElem hn]
    exact congrArg some he
  · obtain ⟨n, hn, he⟩ := List.mem_iff_getElem.1 hd
    refine ⟨i + 1 + n, by omega, ?_⟩
    rw [← List.getElem?_drop]
    rw [List.getElem?_eq_getElem hn]
    exact congrArg some he

/-- An element at an index other than the erased one survives the erase. -/
theorem getElem_mem_eraseIdx {α : Type} (l : List α) (i k : Nat) (a : α)
    (hk : l[k]? = some a) (hne : k ≠ i) : a ∈ l.eraseIdx i := by
  rw [List.eraseIdx_eq_take_drop_succ]
  rcases Nat.lt_or_ge k i with hlt | hge
  · apply List.mem_append_left
    have : (l.take i)[k]? = some a := by rw [List.getElem?_take_of_lt hlt]; exact hk
    exact List.getElem?_mem this
  · apply List.mem_append_right
    have hgt : i + 1 ≤ k := by omega
    have : (l.drop (i + 1))[k - (i + 1)]? = some a := by
      rw [List.getElem?_drop]
      have : i + 1 + (k - (i + 1)) = k := by omega
      rw [this]
      exact hk
    exact List.getElem?_mem this

/-- indicesToDelete written through the named selector. -/
theorem indicesToDelete_eq (msgs : List BMessage) :
    indicesToDelete msgs =
      sortDesc (dedupNat ((buildPairMap msgs).filterMap deleteSel)) := rfl

/-- C3 amended: for a message list whose only unmatched toolUse id is x,
occurring in the message at index i, stopGeneration removes exactly that
message from the list and issues the single durable delete at index i; if
that message records no toolResult ids, no unmatched toolUse remains
afterwards; a list in which every recorded toolUse id has a recorded
toolResult is left unchanged, with no deletes. -/
theorem abort_repair :
    (∀ (msgs : List BMessage) (i : Nat) (x : String) (mi : BMessage),
      msgs[i]? = some mi →
      x ∈ usesOf mi →
      (∀ m ∈ msgs, x ∉ resultsOf m) →
      (∀ (j : Nat) (mj : BMessage) (y : String), msgs[j]? = some mj → y ∈ usesOf mj →
        (∃ m2 ∈ msgs, y ∈ resultsOf m2) ∨ (y = x ∧ j = i)) →
      (stopGenerationRepair msgs = (msgs.eraseIdx i, [i]) ∧
        (resultsOf mi = [] →
          ∀ m ∈ msgs.eraseIdx i, ∀ y ∈ usesOf m,
            ∃ m2 ∈ msgs.eraseIdx i, y ∈ resultsOf m2))) ∧
    (∀ msgs : List BMessage,
      (∀ (j : Nat) (mj : BMessage) (y : String), msgs[j]? = some mj → y ∈ usesOf mj →
        ∃ m2 ∈ msgs, y ∈ resultsOf m2) →
      stopGenerationRepair msgs = (msgs, [])) := by
  constructor
  · intro msgs i x mi hi hx hnores honly
    have hnd := buildPairMap_nodup msgs
    have hmem_mi : mi ∈ msgs := List.getElem?_mem hi
    have hall : ∀ a ∈ (buildPairMap msgs).filterMap deleteSel, a = i := by
      intro a ha
      obtain ⟨p, hp, hFp⟩ := List.mem_filterMap.1 ha
      unfold deleteSel at hFp
      by_cases hc : p.2.useIndex ≥ 0 ∧ p.2.resultIndex = -1
      · rw [if_pos hc, Option.some.injEq] at hFp
        have hlk : lookupE p.1 (buildPairMap msgs) = some p.2 :=
          lookupE_of_mem_nodup p.1 p.2 _ (by rw [Prod.mk.eta]; exact hp) hnd
        have hspec := (pairMap_spec msgs p.1).2 p.2 hlk
        have hnr2 : ¬ hasResIn msgs p.1 := by
          rcases hspec.2 with ⟨_, h2⟩ | ⟨j, mj, hj, hyj, hje⟩
          · exact h2
          · exfalso
            rw [hc.2] at hje
            omega
        rcases hspec.1 with ⟨h1, _⟩ | ⟨j, mj, hj, hyj, hje⟩
        · exfalso
          rw [h1] at hc
          omega
        · rcases honly j mj p.1 hj hyj with hres | ⟨_, hji⟩
          · exact absurd hres hnr2
          · subst hji
            rw [← hFp, hje]
            simp
      · rw [if_neg hc] at hFp
        exact absurd hFp (by simp)
    have hmemi : i ∈ (buildPairMap msgs).filterMap deleteSel := by
      have hx_has : hasUseIn msgs x := ⟨mi, hmem_mi, hx⟩
      cases hlk : lookupE x (buildPairMap msgs) with
      | none => exact absurd hx_has ((pairMap_spec msgs x).1 hlk).1
      | some e =>
        have hspec := (pairMap_spec msgs x).2 e hlk
        have hresm1 : e.resultIndex = -1 := by
          rcases hspec.2 with ⟨h1, _⟩ | ⟨j, mj, hj, hyj, _⟩
          · exact h1
          · exact absurd hyj (hnores mj (List.getElem?_mem hj))
        rcases hspec.1 with ⟨_, h2⟩ | ⟨j, mj, hj, hyj, hje⟩
        · exact absurd hx_has h2
        · rcases honly j mj x hj hyj with hres | ⟨_, hji⟩
          · exfalso
            obtain ⟨m2, hm2, hy2⟩ := hres
            exact hnores m2 hm2 hy2
          · subst hji
            refine List.mem_filterMap.2 ⟨(x, e), mem_of_lookupE x e _ hlk, ?_⟩
            unfold deleteSel
            rw [if_pos ⟨by rw [hje]; exact Int.natCast_nonneg j, hresm1⟩]
            rw [hje]
            simp
    have hne : (buildPairMap msgs).filterMap deleteSel ≠ [] := by
      intro h
      rw [h] at hmemi
      exact absurd hmemi (by simp)
    have hidx : indicesToDelete msgs = [i] := by
      rw [indicesToDelete_eq, dedupNat_all_eq _ i hne hall]
      rfl
    constructor
    · unfold stopGenerationRepair
      rw [hidx]
      rfl
    · intro hprov m hm y hy
      obtain ⟨k, hki, hkm⟩ := mem_eraseIdx_position msgs i m hm
      rcases honly k m y hkm hy with hres | ⟨hyx, hji⟩
      · obtain ⟨m2, hm2, hy2⟩ := hres
        obtain ⟨k2, hk2⟩ : ∃ k2 : Nat, msgs[k2]? = some m2 := by
          obtain ⟨n, hn, he⟩ := List.mem_iff_getElem.1 hm2
          exact ⟨n, by rw [List.getElem?_eq_getElem hn]; exact congrArg some he⟩
        have hk2i : k2 ≠ i := by
          intro hk2i
          subst hk2i
          rw [hi, Option.some.injEq] at hk2
          rw [hk2] at hprov
          rw [hprov] at hy2
          exact absurd hy2 (by simp)
        exact ⟨m2, getElem_mem_eraseIdx msgs i k2 m2 hk2 hk2i, hy2⟩
      · exact absurd hji hki
  · intro msgs hmatched
    have hnd := buildPairMap_nodup msgs
    have hnone : ∀ p ∈ buildPairMap msgs, deleteSel p = none := by
      intro p hp
      unfold deleteSel
      rw [if_neg]
      intro hc
      have hlk : lookupE p.1 (buildPairMap msgs) = some p.2 :=
        lookupE_of_mem_nodup p.1 p.2 _ (by rw [Prod.mk.eta]; exact hp) hnd
      have hspec := (pairMap_spec msgs p.1).2 p.2 hlk
      rcases hspec.1 with ⟨h1, _⟩ | ⟨j, mj, hj, hyj, _⟩
      · rw [h1] at hc
        omega
      · have hres : hasResIn msgs p.1 := hmatched j mj p.1 hj hyj
        rcases hspec.2 with ⟨_, h2⟩ | ⟨j2, mj2, _, _, hje2⟩
        · exact h2 hres
        · rw [hc.2] at hje2
          omega
    have hidx : indicesToDelete msgs = [] := by
      rw [indicesToDelete_eq, List.filterMap_eq_nil_iff.2 hnone]
      rfl
    unfold stopGenerationRepair
    rw [hidx]
    rfl

/-- Counterexample to C3 as stated: the repair deletes the message holding
the unmatched use of b, but that message also held the result for a, so an
unmatched toolUse (a) remains after stopGeneration. -/
theorem abort_repair_counterexample :
    stopGenerationRepair cexMsgs = ([cexMsg0], [1]) ∧
    "a" ∈ usesOf cexMsg0 ∧ resultsOf cexMsg0 = [] := by
  refine ⟨rfl, by decide, rfl⟩

/-- Witness for C3 amended: the singleton conversation with one unmatched
use is repaired to the empty list with one durable delete at index 0. -/
theorem abort_repair_witness :
    stopGenerationRepair [wm0] = (([wm0] : List BMessage).eraseIdx 0, [0]) ∧
    stopGenerationRepair ([] : List BMessage) = ([], []) := by
  constructor
  · refine (abort_repair.1 [wm0] 0 "u" wm0 rfl (by decide) (by decide) ?_).1
    intro j mj y hj hy
    cases j with
    | zero =>
      rw [show ([wm0] : List BMessage)[0]? = some wm0 from rfl, Option.some.injEq] at hj
      subst hj
      right
      refine ⟨?_, rfl⟩
      have : usesOf wm0 = ["u"] := rfl
      rw [this] at hy
      exact List.mem_singleton.1 hy
    | succ n =>
      exact absurd hj (by simp [List.getElem?_cons_succ])
  · refine abort_repair.2 [] ?_
    intro j mj y hj _
    exact absurd hj (by simp)
